import Mathlib

/-!
Verification of the Restinfront model engine (src/src/model.js and the
field-type registry) against its natural-language specification.

The development shallowly embeds the parts of the code the claims are
about:

* the collection operations of the `Model` class (`add`, `remove`,
  `exists`, `toggle`, `clear`, the constructor, and the in-place merge
  `_mutateData`) over a collection state `{items, count}`;
* the validator construction (`_buildValidator`) and the validation
  walk (`_getValidationErrors`, `valid`);
* the serializer (`_beforeSaveItem`);
* the paginated-envelope detection of `fetch`
  (`_hasMatchedCollectionPattern`);
* the raw-item synthesis (`_buildRawItem`) with JavaScript truthiness;
* the scalar field types DATE, DATEONLY and PHONE with their
  `beforeBuild` / `beforeSerialize` steps.

JavaScript dynamic values are embedded by small inductive types local
to each component; machine details that the claims do not touch (for
example property iteration order of JS engines) are modelled by the
insertion-ordered association lists the code relies on.
-/

namespace Restinfront

/-! ## Collection core (src/src/model.js, collection methods)

An item of a collection is an entity that carries a primary-key value.
The primary-key value is modelled as a `String` (the engine compares it
with `===`).  A `tag` payload keeps distinct entities distinguishable
even when they share a primary key, which the list operations allow. -/

structure Item where
  pk : String
  tag : String
deriving DecidableEq, Repr

/-- A collection instance: the ordered item list stored under the
collection key, and the `$modelize.count` bookkeeping value.  The code
manipulates `count` with JavaScript number arithmetic; the claims touch
only integer values, so `Int` is the faithful carrier. -/
structure Collection where
  items : List Item
  count : Int
deriving DecidableEq, Repr

/-- A reference accepted by the collection methods: a predicate, a bare
primary-key string, or an object carrying the primary key
(`_getCollectionCallback`). -/
inductive Ref where
  | fn (p : Item → Bool)
  | str (s : String)
  | obj (o : Item)

/-- `_getCollectionCallback(ref)` from src/src/model.js lines 341-347:
a predicate is used unchanged, a string is compared to the item's
primary key, and an object is compared primary key to primary key. -/
def getCollectionCallback (ref : Ref) : Item → Bool :=
  match ref with
  | Ref.fn p => p
  | Ref.str s => fun item => item.pk == s
  | Ref.obj o => fun item => item.pk == o.pk

/-- The JavaScript value returned by the collection mutators: `null`,
a single model instance, or an array of model instances (the value of
`Array.prototype.splice`). -/
inductive JsVal where
  | null
  | inst (it : Item)
  | arr (xs : List Item)
deriving DecidableEq, Repr

/-- `exists(ref)` from src/src/model.js lines 684-686. -/
def Collection.existsRef (c : Collection) (ref : Ref) : Bool :=
  c.items.any (getCollectionCallback ref)

/-- `find(ref)` from src/src/model.js lines 676-678. -/
def Collection.findRef (c : Collection) (ref : Ref) : JsVal :=
  match c.items.find? (getCollectionCallback ref) with
  | some it => JsVal.inst it
  | none => JsVal.null

/-- `remove(ref)` from src/src/model.js lines 692-702: look up the
index of the first match; on a miss return `null` and leave the
instance untouched; on a hit decrement `count` and return the result of
`splice(indexToRemove, 1)`, which is the one-element array of the
removed item. -/
def Collection.remove (c : Collection) (ref : Ref) : JsVal × Collection :=
  match c.items.findIdx? (getCollectionCallback ref) with
  | none => (JsVal.null, c)
  | some i =>
      (JsVal.arr (c.items.drop i |>.take 1),
       { items := c.items.take i ++ c.items.drop (i + 1),
         count := c.count - 1 })

/-- `add(item)` from src/src/model.js lines 708-718, in the case where
the argument is already an instance of the model (`item instanceof
this.constructor`): push it and increment `count`, returning the
instance. -/
def Collection.add (c : Collection) (item : Item) : Item × Collection :=
  (item, { items := c.items ++ [item], count := c.count + 1 })

/-- `clear()` from src/src/model.js lines 668-670: `splice(0, length)`
empties the item list and leaves `count` untouched. -/
def Collection.clear (c : Collection) : Collection :=
  { items := [], count := c.count }

/-- `toggle(item, callback)` from src/src/model.js lines 724-732:
resolve the reference as `callback || item`, then remove when present
and add otherwise. -/
def Collection.toggle (c : Collection) (item : Item) (callback : Option Ref) :
    JsVal × Collection :=
  let ref := callback.getD (Ref.obj item)
  if c.existsRef ref then
    c.remove ref
  else
    let (inst, c2) := c.add item
    (JsVal.inst inst, c2)

/-- The collection branch of the constructor, src/src/model.js lines
472-502: `count` starts at `0`, every input item is `add`ed in order,
and an explicit `count` option overwrites the running count after all
adds. -/
def buildCollection (data : List Item) (countOpt : Option Int) : Collection :=
  let base := data.foldl (fun c it => (c.add it).2) { items := [], count := 0 }
  match countOpt with
  | some k => { base with count := k }
  | none => base

/-- The collection branch of `_mutateData`, src/src/model.js lines
274-282: with `extend` every fresh item is `add`ed (each add bumping
`count`), otherwise the fresh item list replaces the current one; in
both cases `count` is then overwritten with the fresh collection's
count. -/
def Collection.mutateData (c : Collection) (fresh : Collection)
    (extend : Bool) : Collection :=
  let merged :=
    if extend then
      fresh.items.foldl (fun acc it => (acc.add it).2) c
    else
      { c with items := fresh.items }
  { merged with count := fresh.count }

/-! ### Structure lemmas for `findIdx?`-based removal -/

/-- A successful `findIdx?` splits the list into a prefix of
non-matching elements, the first matching element, and a suffix. -/
theorem findIdx?_split {α : Type} (p : α → Bool) (l : List α) (i : Nat)
    (h : l.findIdx? p = some i) :
    ∃ x, l.take i ++ x :: l.drop (i + 1) = l ∧ p x = true ∧
      (∀ y ∈ l.take i, p y = false) ∧ (l.drop i).take 1 = [x] := by
  induction l generalizing i with
  | nil => simp [List.findIdx?_nil] at h
  | cons a as ih =>
      rw [List.findIdx?_cons] at h
      by_cases hpa : p a = true
      · simp [hpa] at h
        subst h
        exact ⟨a, by simp, hpa, by simp, by simp⟩
      · simp [hpa, List.findIdx?_succ] at h
        obtain ⟨j, hj, hji⟩ := h
        obtain ⟨x, hsplit, hpx, hpre, hdrop⟩ := ih j hj
        refine ⟨x, ?_, hpx, ?_, ?_⟩
        · subst hji
          simpa using hsplit
        · subst hji
          intro y hy
          rw [List.take_succ_cons] at hy
          rcases List.mem_cons.1 hy with hy | hy
          · subst hy
            exact eq_false_of_ne_true hpa
          · exact hpre y hy
        · subst hji
          simpa using hdrop

/-- When every element of `l` fails `p` and `a` passes it, the first
match in `l ++ [a]` is `a` itself, sitting at index `l.length`. -/
theorem findIdx?_append_singleton {α : Type} (p : α → Bool) (l : List α)
    (a : α) (hl : ∀ y ∈ l, p y = false) (ha : p a = true) :
    (l ++ [a]).findIdx? p = some l.length := by
  induction l with
  | nil => simp [List.findIdx?_cons, ha]
  | cons b bs ih =>
      have hb : p b = false := hl b (by simp)
      rw [List.cons_append, List.findIdx?_cons]
      simp only [hb]
      rw [List.findIdx?_succ, ih (fun y hy => hl y (by simp [hy]))]
      simp

/-! ### C1: `remove` -/

/-- C1 (amended): on a reference matching no item, `remove` returns
`null` and leaves the item list and the count unchanged; on a matching
reference it removes the first matching item, decrements both the item
list's length and the count by exactly one, and returns the one-element
array produced by `splice` that holds the removed item (not the bare
item itself). -/
theorem remove_spec (c : Restinfront.Collection) (ref : Restinfront.Ref) :
    ((∀ x ∈ c.items, Restinfront.getCollectionCallback ref x = false) →
      c.remove ref = (Restinfront.JsVal.null, c)) ∧
    ((∃ x ∈ c.items, Restinfront.getCollectionCallback ref x = true) →
      ∃ x pre post,
        c.items = pre ++ x :: post ∧
        (∀ y ∈ pre, Restinfront.getCollectionCallback ref y = false) ∧
        Restinfront.getCollectionCallback ref x = true ∧
        c.remove ref =
          (Restinfront.JsVal.arr [x],
           { items := pre ++ post, count := c.count - 1 }) ∧
        (c.remove ref).2.items.length + 1 = c.items.length ∧
        (c.remove ref).2.count = c.count - 1) := by
  constructor
  · intro hnone
    have : c.items.findIdx? (Restinfront.getCollectionCallback ref) = none :=
      List.findIdx?_eq_none_iff.2 hnone
    simp [Restinfront.Collection.remove, this]
  · intro hsome
    obtain ⟨i, hi⟩ :
        ∃ i, c.items.findIdx? (Restinfront.getCollectionCallback ref) = some i := by
      rcases h : c.items.findIdx? (Restinfront.getCollectionCallback ref) with _ | i
      · rw [List.findIdx?_eq_none_iff] at h
        obtain ⟨x, hx, hpx⟩ := hsome
        rw [h x hx] at hpx
        exact absurd hpx (by simp)
      · exact ⟨i, rfl⟩
    obtain ⟨x, hsplit, hpx, hpre, hdrop⟩ :=
      findIdx?_split (Restinfront.getCollectionCallback ref) c.items i hi
    refine ⟨x, c.items.take i, c.items.drop (i + 1), hsplit.symm, hpre, hpx, ?_⟩
    have hrm : c.remove ref =
        (Restinfront.JsVal.arr [x],
         { items := c.items.take i ++ c.items.drop (i + 1),
           count := c.count - 1 }) := by
      simp [Restinfront.Collection.remove, hi, hdrop]
    refine ⟨hrm, ?_, by rw [hrm]⟩
    rw [hrm]
    simp only []
    conv_rhs => rw [← hsplit]
    simp [Nat.add_comm, Nat.add_assoc, Nat.add_left_comm]

/-- C1 counterexample: the claim says `remove` returns the removed item
itself, but on a one-item collection it returns the one-element array
holding the item, which is a different JavaScript value. -/
theorem remove_returns_array_not_item :
    (Restinfront.Collection.remove
        { items := [{ pk := "a", tag := "x" }], count := 1 }
        (Restinfront.Ref.obj { pk := "a", tag := "x" })).1 ≠
      Restinfront.JsVal.inst { pk := "a", tag := "x" } := by
  decide

/-! ### C2: the `length <= count` invariant -/

/-- The collection invariant claimed by the spec: the number of
materialized items never exceeds the `$modelize.count` grand total. -/
def Collection.lengthLeCount (c : Collection) : Prop :=
  (c.items.length : Int) ≤ c.count

instance (c : Collection) : Decidable c.lengthLeCount := by
  unfold Collection.lengthLeCount
  infer_instance

/-- Folding `add` over a list appends the items and bumps the count
once per item. -/
theorem foldl_add_eq (c0 : Collection) (l : List Item) :
    l.foldl (fun c it => (c.add it).2) c0 =
      { items := c0.items ++ l, count := c0.count + l.length } := by
  induction l generalizing c0 with
  | nil => simp
  | cons x xs ih =>
      rw [List.foldl_cons, ih]
      simp only [Collection.add, List.length_cons]
      refine congrArg₂ Collection.mk (by simp) ?_
      push_cast
      ring

/-- A successful `findIdx?` can be extracted from a successful `any`. -/
theorem findIdx?_isSome_of_any {α : Type} (p : α → Bool) (l : List α)
    (h : l.any p = true) : ∃ i, l.findIdx? p = some i := by
  rcases hf : l.findIdx? p with _ | i
  · rw [List.findIdx?_eq_none_iff] at hf
    obtain ⟨x, hx, hpx⟩ := List.any_eq_true.1 h
    rw [hf x hx] at hpx
    exact absurd hpx (by simp)
  · exact ⟨i, rfl⟩

/-- `remove` either misses and returns the collection unchanged, or
removes exactly one element from a non-empty list and decrements the
count by one. -/
theorem remove_cases (c : Collection) (ref : Ref) :
    c.remove ref = (JsVal.null, c) ∨
    (1 ≤ c.items.length ∧
     (c.remove ref).2.items.length + 1 = c.items.length ∧
     (c.remove ref).2.count = c.count - 1) := by
  rcases hf : c.items.findIdx? (getCollectionCallback ref) with _ | i
  · exact Or.inl (by simp [Collection.remove, hf])
  · right
    obtain ⟨x, hsplit, -, -, -⟩ :=
      findIdx?_split (getCollectionCallback ref) c.items i hf
    have hlen : c.items.length =
        (c.items.take i).length + ((c.items.drop (i + 1)).length + 1) := by
      conv_lhs => rw [← hsplit]
      simp [Nat.add_comm]
    refine ⟨by omega, ?_, by simp [Collection.remove, hf]⟩
    simp only [Collection.remove, hf]
    simp only [List.length_append]
    omega

/-- `toggle` routes to `remove` or `add`, both of which move the
length and the count in lockstep. -/
theorem toggle_cases (c : Collection) (item : Item) (callback : Option Ref) :
    (c.toggle item callback).2 = c ∨
    (1 ≤ c.items.length ∧
     (c.toggle item callback).2.items.length + 1 = c.items.length ∧
     (c.toggle item callback).2.count = c.count - 1) ∨
    ((c.toggle item callback).2.items.length = c.items.length + 1 ∧
     (c.toggle item callback).2.count = c.count + 1) := by
  unfold Collection.toggle
  rcases hex : c.existsRef (callback.getD (Ref.obj item)) with _ | _
  · simp only [hex, Bool.false_eq_true, if_false]
    right; right
    simp [Collection.add]
  · simp only [hex, if_true]
    rcases remove_cases c (callback.getD (Ref.obj item)) with h | h
    · exact Or.inl (by rw [h])
    · exact Or.inr (Or.inl h)

/-- C2 (amended): `length <= count` holds after construction when no
explicit count is supplied, and when the supplied count is at least the
number of input items; it is preserved by `add`, `remove`, `toggle` and
`clear`; the post-fetch in-place merge preserves it in replace mode
whenever the fresh collection satisfies it, and in extend mode whenever
the fresh count is at least the combined number of items. -/
theorem lengthLeCount_spec :
    (∀ data : List Item, (buildCollection data none).lengthLeCount) ∧
    (∀ (data : List Item) (k : Int), (data.length : Int) ≤ k →
      (buildCollection data (some k)).lengthLeCount) ∧
    (∀ (c : Collection) (it : Item), c.lengthLeCount →
      (c.add it).2.lengthLeCount) ∧
    (∀ (c : Collection) (ref : Ref), c.lengthLeCount →
      (c.remove ref).2.lengthLeCount) ∧
    (∀ (c : Collection) (it : Item) (cb : Option Ref), c.lengthLeCount →
      (c.toggle it cb).2.lengthLeCount) ∧
    (∀ c : Collection, c.lengthLeCount → c.clear.lengthLeCount) ∧
    (∀ c fresh : Collection, fresh.lengthLeCount →
      (c.mutateData fresh false).lengthLeCount) ∧
    (∀ c fresh : Collection,
      (c.items.length : Int) + fresh.items.length ≤ fresh.count →
      (c.mutateData fresh true).lengthLeCount) := by
  have hbase : ∀ data : List Item,
      buildCollection data none =
        { items := data, count := (data.length : Int) } := by
    intro data
    simp [buildCollection, foldl_add_eq]
  refine ⟨?_, ?_, ?_, ?_, ?_, ?_, ?_, ?_⟩
  · intro data
    rw [hbase]
    exact le_refl _
  · intro data k hk
    simpa [buildCollection, foldl_add_eq, Collection.lengthLeCount] using hk
  · intro c it h
    unfold Collection.lengthLeCount at h ⊢
    simp only [Collection.add, List.length_append, List.length_cons,
      List.length_nil]
    push_cast
    omega
  · intro c ref h
    unfold Collection.lengthLeCount at h ⊢
    rcases remove_cases c ref with hc | ⟨h1, h2, h3⟩
    · rw [hc]
      exact h
    · rw [h3]
      omega
  · intro c it cb h
    unfold Collection.lengthLeCount at h ⊢
    rcases toggle_cases c it cb with hc | ⟨h1, h2, h3⟩ | ⟨h2, h3⟩
    · rw [hc]
      exact h
    · rw [h3]
      omega
    · rw [h2, h3]
      push_cast
      omega
  · intro c h
    unfold Collection.lengthLeCount at h ⊢
    simp only [Collection.clear, List.length_nil, Nat.cast_zero]
    omega
  · intro c fresh h
    unfold Collection.lengthLeCount at h ⊢
    simp [Collection.mutateData]
    exact h
  · intro c fresh h
    unfold Collection.lengthLeCount
    simp only [Collection.mutateData, if_true, foldl_add_eq]
    simpa using h

/-- C2 counterexample: the invariant does not survive construction with
an explicit count smaller than the item list, nor the extend-mode merge
when the fresh count undershoots the combined length, so the claim's
unconditional quantification fails. -/
theorem lengthLeCount_violated :
    ¬ (buildCollection [{ pk := "a", tag := "x" }] (some 0)).lengthLeCount ∧
    (buildCollection [{ pk := "a", tag := "x" }] none).lengthLeCount ∧
    (buildCollection [{ pk := "b", tag := "y" }] none).lengthLeCount ∧
    ¬ ((buildCollection [{ pk := "a", tag := "x" }] none).mutateData
        (buildCollection [{ pk := "b", tag := "y" }] none) true).lengthLeCount := by
  refine ⟨?_, ?_, ?_, ?_⟩ <;> decide

/-! ### C7: `toggle` as its own inverse -/

/-- An item always matches the object reference built from itself:
`_getCollectionCallback` compares primary keys with `===`. -/
theorem callback_obj_self (item : Item) :
    getCollectionCallback (Ref.obj item) item = true := by
  simp [getCollectionCallback]

/-- Unfolding lemma for `remove` on a successful index lookup. -/
theorem remove_eq_of_findIdx? (c : Collection) (ref : Ref) (i : Nat)
    (h : c.items.findIdx? (getCollectionCallback ref) = some i) :
    (c.remove ref).2 =
      { items := c.items.take i ++ c.items.drop (i + 1),
        count := c.count - 1 } := by
  simp [Collection.remove, h]

/-- Removing the unique match leaves no match behind. -/
theorem remove_unique_match (c : Collection) (ref : Ref)
    (hone : (c.items.filter (getCollectionCallback ref)).length ≤ 1)
    (hex : c.existsRef ref = true) :
    ∀ y ∈ (c.remove ref).2.items, getCollectionCallback ref y = false := by
  obtain ⟨i, hi⟩ := findIdx?_isSome_of_any _ _ hex
  obtain ⟨x, hsplit, hpx, hpre, -⟩ :=
    findIdx?_split (getCollectionCallback ref) c.items i hi
  have hfpre : (c.items.take i).filter (getCollectionCallback ref) = [] :=
    List.filter_eq_nil_iff.2 (fun y hy => by simp [hpre y hy])
  have hfilter : c.items.filter (getCollectionCallback ref) =
      x :: (c.items.drop (i + 1)).filter (getCollectionCallback ref) := by
    conv_lhs => rw [← hsplit]
    rw [List.filter_append, hfpre, List.nil_append, List.filter_cons_of_pos hpx]
  have hpost : (c.items.drop (i + 1)).filter (getCollectionCallback ref) = [] := by
    rw [hfilter] at hone
    simp only [List.length_cons] at hone
    exact List.length_eq_zero.1 (by omega)
  have hpostall : ∀ y ∈ c.items.drop (i + 1),
      getCollectionCallback ref y = false := by
    intro y hy
    have := List.filter_eq_nil_iff.1 hpost y hy
    simpa using this
  intro y hy
  simp only [Collection.remove, hi] at hy
  rcases List.mem_append.1 hy with hy | hy
  · exact hpre y hy
  · exact hpostall y hy

/-- C7 (amended): when at most one item of the collection matches the
reference, toggling twice with the same reference restores membership:
afterwards the collection contains an item matching the reference if
and only if it did before the two calls.  (With two or more matching
items the code removes one per call instead, see the
counterexample.) -/
theorem toggle_toggle_membership (c : Collection) (item : Item)
    (hone : (c.items.filter (getCollectionCallback (Ref.obj item))).length ≤ 1) :
    (((c.toggle item none).2).toggle item none).2.existsRef (Ref.obj item) =
      c.existsRef (Ref.obj item) := by
  rcases hex : c.existsRef (Ref.obj item) with _ | _
  · -- absent: first toggle adds, second removes the added instance
    have hall : ∀ y ∈ c.items, getCollectionCallback (Ref.obj item) y = false :=
      fun y hy => by
        have := List.any_eq_false.1 (by simpa [Collection.existsRef] using hex) y hy
        simpa using this
    have h1 : (c.toggle item none).2 =
        { items := c.items ++ [item], count := c.count + 1 } := by
      simp only [Collection.toggle, Option.getD_none, hex, Bool.false_eq_true,
        if_false, Collection.add]
    have hidx : (c.items ++ [item]).findIdx?
        (getCollectionCallback (Ref.obj item)) = some c.items.length :=
      findIdx?_append_singleton _ c.items item hall (callback_obj_self item)
    have hex2 : ({ items := c.items ++ [item], count := c.count + 1 } :
        Collection).existsRef (Ref.obj item) = true := by
      simp [Collection.existsRef, callback_obj_self item]
    have h2 : ((({ items := c.items ++ [item], count := c.count + 1 } :
        Collection)).toggle item none).2 =
        { items := c.items, count := c.count } := by
      simp only [Collection.toggle, hex2, Option.getD_none, if_true]
      rw [remove_eq_of_findIdx? _ (Ref.obj item) c.items.length hidx]
      refine congrArg₂ Collection.mk ?_ (by ring_nf)
      simp only []
      rw [List.take_left' rfl,
        List.drop_eq_nil_of_le (by simp), List.append_nil]
    rw [h1, h2, hex]
  · -- present (uniquely): first toggle removes it, second adds it back
    have h1 : (c.toggle item none).2 = (c.remove (Ref.obj item)).2 := by
      simp only [Collection.toggle, Option.getD_none, hex, if_true]
    have hall2 : ∀ y ∈ (c.remove (Ref.obj item)).2.items,
        getCollectionCallback (Ref.obj item) y = false :=
      remove_unique_match c (Ref.obj item) hone hex
    have hex2 : (c.remove (Ref.obj item)).2.existsRef (Ref.obj item) = false := by
      simpa [Collection.existsRef] using
        List.any_eq_false.2 (fun y hy => by simp [hall2 y hy])
    rw [h1]
    simp only [Collection.toggle, Option.getD_none, hex2, Bool.false_eq_true,
      if_false, Collection.add]
    simp [Collection.existsRef, callback_obj_self item]

/-- C7 counterexample: with two items sharing the primary key "a",
toggling the item twice removes both copies, so membership is not
restored and `toggle` is not its own inverse as claimed. -/
theorem toggle_toggle_not_inverse :
    ¬ ((((Collection.mk
            [{ pk := "a", tag := "x" }, { pk := "a", tag := "y" }] 2).toggle
            { pk := "a", tag := "x" } none).2.toggle
            { pk := "a", tag := "x" } none).2.existsRef
          (Ref.obj { pk := "a", tag := "x" }) =
        (Collection.mk
            [{ pk := "a", tag := "x" }, { pk := "a", tag := "y" }] 2).existsRef
          (Ref.obj { pk := "a", tag := "x" })) := by
  decide

/-! ## Validator construction (`_buildValidator`, src/src/model.js
lines 96-123)

The validator closure built for one schema field, over abstract value
and entity carriers. -/

/-- The checks a FieldType contributes to validation. -/
structure FieldTypeChecks (V : Type) where
  isBlank : V → Bool
  isValid : V → Bool

/-- A compiled schema field configuration, after `init` normalized
`allowBlank` and `isValid` to functions and filled `autoChecked`
(src/src/model.js lines 191-229). -/
structure FieldConfChecks (V E : Type) where
  type : FieldTypeChecks V
  allowBlank : V → E → Bool
  isValid : V → E → Bool
  autoChecked : Bool

/-- The body of the per-field `isValid` closure created by
`_buildValidator`: blank-and-allowed or not-blank-and-type-valid, and
the schema-level custom check. -/
def validatorIsValid {V E : Type} (fieldconf : FieldConfChecks V E)
    (value : V) (data : E) : Bool :=
  let isBlank := fieldconf.type.isBlank value
  ((isBlank && fieldconf.allowBlank value data) ||
    (!isBlank && fieldconf.type.isValid value)) &&
  fieldconf.isValid value data

/-- `_buildValidator` itself: one `{checked, isValid}` entry per schema
field, `checked` starting at the field's `autoChecked` flag. -/
def buildValidator {V E : Type} (schema : List (String × FieldConfChecks V E)) :
    List (String × (Bool × (V → E → Bool))) :=
  schema.map (fun p => (p.1, (p.2.autoChecked, validatorIsValid p.2)))

/-- C4: for every schema field, the validator table carries an entry
whose `checked` flag starts at `autoChecked` and whose `isValid`
returns true exactly when ((the FieldType blank test holds and the
schema's allow-blank policy permits it) or (the blank test fails and
the FieldType validity test holds)) and the schema-level custom
validity holds for the value and the owning entity. -/
theorem buildValidator_isValid_iff {V E : Type}
    (schema : List (String × FieldConfChecks V E)) (f : String)
    (conf : FieldConfChecks V E) (hmem : (f, conf) ∈ schema) :
    (f, (conf.autoChecked, validatorIsValid conf)) ∈ buildValidator schema ∧
    ∀ (v : V) (e : E),
      (validatorIsValid conf v e = true ↔
        (((conf.type.isBlank v = true ∧ conf.allowBlank v e = true) ∨
          (conf.type.isBlank v = false ∧ conf.type.isValid v = true)) ∧
         conf.isValid v e = true)) := by
  constructor
  · exact List.mem_map.2 ⟨(f, conf), hmem, rfl⟩
  · intro v e
    unfold validatorIsValid
    rcases hb : conf.type.isBlank v with _ | _ <;> simp [hb]

/-! ## Entity instances and the validation walk
(`_getValidationErrors` and `valid`, src/src/model.js lines 354-426 and
739-753)

An entity instance carries its own field map, the `checked` flags of
its validator table, and the `$modelize.states` block.  Field values
are JavaScript values: `null`, an opaque primitive, a nested entity, or
a nested collection (a collection instance of an associated model).
The per-field `isValid` closures and the association kinds are
determined by the schema, so they enter the model as parameters of the
walk rather than as data stored in the instance (the code builds the
closures from the shared static schema). -/

/-- The `$modelize.states` block of an item instance
(src/src/model.js lines 444-452). -/
structure ModStates where
  fetchInProgress : Bool
  fetchSuccessOnce : Bool
  fetchSuccess : Bool
  fetchFailure : Bool
  saveInProgress : Bool
  saveSuccess : Bool
  saveFailure : Bool
deriving DecidableEq, Repr

mutual
inductive Val where
  | vNull : Val
  | vPrim : String → Val
  | vEnt : Ent → Val
  | vColl : List Ent → Val
deriving Repr

inductive Ent where
  | mk : List (String × Val) → List (String × Bool) → ModStates → Ent
deriving Repr
end

/-- The user-visible field map (own enumerable properties except the
internal `$modelize` block, which the model keeps out of band). -/
def Ent.fields : Ent → List (String × Val)
  | Ent.mk fs _ _ => fs

/-- The `checked` column of `$modelize.validator`. -/
def Ent.checked : Ent → List (String × Bool)
  | Ent.mk _ ck _ => ck

/-- The `$modelize.states` block. -/
def Ent.states : Ent → ModStates
  | Ent.mk _ _ st => st

/-- `has(this, fieldname)`: own-property test on the field map. -/
def Ent.hasField (e : Ent) (f : String) : Bool :=
  e.fields.any (fun p => p.1 == f)

/-- `this[fieldname]`: property read (the default is irrelevant; every
use is guarded by `hasField`). -/
def Ent.getField (e : Ent) (f : String) : Val :=
  match e.fields.find? (fun p => p.1 == f) with
  | some p => p.2
  | none => Val.vNull

/-- JavaScript object assignment `o[k] = v` on an association list:
overwrite the first entry with that key, append when absent. -/
def setEntry {β : Type} (l : List (String × β)) (f : String) (v : β) :
    List (String × β) :=
  match l with
  | [] => [(f, v)]
  | (g, w) :: t => if g == f then (g, v) :: t else (g, w) :: setEntry t f v

/-- In-place update `this[fieldname] = value` (used to model the
mutation of nested instances, which JavaScript shares by reference). -/
def Ent.setField (e : Ent) (f : String) (v : Val) : Ent :=
  Ent.mk (setEntry e.fields f v) e.checked e.states

/-- `this.$modelize.validator[fieldname].checked = true`.  The code can
only reach this write for fields that are in the validator table; on an
absent key JavaScript would fault, so the model leaves the table
unchanged there. -/
def setCheckedList (l : List (String × Bool)) (f : String) : List (String × Bool) :=
  match l with
  | [] => []
  | (g, b) :: t => if g == f then (g, true) :: t else (g, b) :: setCheckedList t f

/-- Mark one validator entry checked. -/
def Ent.setChecked (e : Ent) (f : String) : Ent :=
  Ent.mk e.fields (setCheckedList e.checked f) e.states

/-- An error descriptor or subtree of the error object built by
`_getValidationErrors`. -/
inductive ErrTree where
  | notValid (value : Val)
  | notFound
  | node (entries : List (String × ErrTree))
deriving Repr

/-- The running `errors` accumulator (`null` until the first error). -/
def ValErrors : Type := Option (List (String × ErrTree))

/-- `mergeErrors(fieldname, error)`: ignore `null`/absent errors,
otherwise materialize the accumulator and assign
`errors[fieldname] = error`. -/
def mergeErrors (errors : ValErrors) (f : String) (err : Option ErrTree) :
    ValErrors :=
  match err with
  | none => errors
  | some e =>
      match errors with
      | none => some (setEntry [] f e)
      | some l => some (setEntry l f e)

/-- A validation field selector: a plain field name, or an association
pair `[fieldname, nestedSelectors]` whose second component may be
absent (a falsy `fieldlist`). -/
inductive Sel where
  | direct (f : String)
  | nested (f : String) (sub : Option (List Sel))
deriving Repr

/-- The three association kinds of the FieldType registry. -/
inductive AssocKind where
  | belongsTo
  | hasOne
  | hasMany
deriving DecidableEq, Repr

/-- The direct-field branch of `_getValidationErrors` (src/src/model.js
lines 373-389), also invoked by the association branch on
`[fieldname]`: mark the field checked, then report `NOT_VALID` with the
offending value when the validator closure rejects it, or `NOT_FOUND`
when the field is not an own property. -/
def validateDirect (fv : String → Val → Ent → Bool) (e : Ent) (f : String) :
    Option ErrTree × Ent :=
  if e.hasField f then
    let e1 := e.setChecked f
    if fv f (e1.getField f) e1 = false then
      (some (ErrTree.notValid (e1.getField f)), e1)
    else
      (none, e1)
  else
    (some ErrTree.notFound, e)

mutual
/-- The loop of `_getValidationErrors` over a selector list, threading
the `errors` accumulator and the (mutated) instance. -/
def runSelList (assoc : String → Option AssocKind)
    (fv : String → Val → Ent → Bool) (e : Ent) (errors : ValErrors)
    (fl : List Sel) : ValErrors × Ent :=
  match fl with
  | [] => (errors, e)
  | s :: rest =>
      let (errors2, e2) := runSel assoc fv e errors s
      runSelList assoc fv e2 errors2 rest
termination_by (sizeOf fl, 0)

/-- One selector step of `_getValidationErrors`.  The association
branch first validates the association field itself through the
`[fieldname]` recursion (whose error object is nested under the field
name), then, when nested selectors are present, dispatches on the
association kind: `BelongsTo`/`HasOne` recurse into a non-null nested
entity, `HasMany` recurses into every item of the nested collection,
each non-null result overwriting `errors[fieldname]`. -/
def runSel (assoc : String → Option AssocKind)
    (fv : String → Val → Ent → Bool) (e : Ent) (errors : ValErrors)
    (s : Sel) : ValErrors × Ent :=
  match s with
  | Sel.direct f =>
      let (err, e2) := validateDirect fv e f
      (mergeErrors errors f err, e2)
  | Sel.nested f sub =>
      if e.hasField f then
        let e1 := e.setChecked f
        let (err1, e2) := validateDirect fv e1 f
        let errors1 := mergeErrors errors f
          (err1.map (fun t => ErrTree.node (setEntry [] f t)))
        match sub with
        | none => (errors1, e2)
        | some fl2 =>
            match assoc f with
            | some AssocKind.belongsTo | some AssocKind.hasOne =>
                match e2.getField f with
                | Val.vEnt nested =>
                    let (errN, nested2) := runSelList assoc fv nested none fl2
                    (mergeErrors errors1 f (errN.map ErrTree.node),
                     e2.setField f (Val.vEnt nested2))
                | _ => (errors1, e2)
            | some AssocKind.hasMany =>
                match e2.getField f with
                | Val.vColl items =>
                    let (errors2, items2) := runColl assoc fv errors1 f items fl2
                    (errors2, e2.setField f (Val.vColl items2))
                | _ => (errors1, e2)
            | none => (errors1, e2)
      else
        (mergeErrors errors f (some ErrTree.notFound), e)
termination_by (sizeOf s, 0)

/-- The `forEach` of the `HasMany` branch: validate every item of the
collection against the nested selector list, merging each item's error
object under the association's field name. -/
def runColl (assoc : String → Option AssocKind)
    (fv : String → Val → Ent → Bool) (errors : ValErrors) (f : String)
    (items : List Ent) (fl2 : List Sel) : ValErrors × List Ent :=
  match items with
  | [] => (errors, [])
  | it :: rest =>
      let (errI, it2) := runSelList assoc fv it none fl2
      let errors2 := mergeErrors errors f (errI.map ErrTree.node)
      let (errors3, rest2) := runColl assoc fv errors2 f rest fl2
      (errors3, it2 :: rest2)
termination_by (sizeOf fl2, sizeOf items + 1)
end

/-- `_getValidationErrors(fieldlist)` with a fresh `null` error
accumulator. -/
def getValidationErrors (assoc : String → Option AssocKind)
    (fv : String → Val → Ent → Bool) (e : Ent) (fl : List Sel) :
    ValErrors × Ent :=
  runSelList assoc fv e none fl

/-- The save-state reset performed at the top of `valid`
(src/src/model.js lines 740-743). -/
def Ent.resetSaveStates (e : Ent) : Ent :=
  Ent.mk e.fields e.checked
    { e.states with
        saveInProgress := false, saveFailure := false, saveSuccess := false }

/-- `valid(fieldlist)` (src/src/model.js lines 739-753): reset the save
track, run the deep validation, and succeed exactly when no error
object was produced (the validation hook is an external observer and
does not feed back into the state). -/
def validCall (assoc : String → Option AssocKind)
    (fv : String → Val → Ent → Bool) (e : Ent) (fl : List Sel) :
    Bool × Ent :=
  let e1 := e.resetSaveStates
  let (errors, e2) := getValidationErrors assoc fv e1 fl
  (errors.isNone, e2)

@[simp]
theorem Ent.states_mk (fs : List (String × Val)) (ck : List (String × Bool))
    (st : ModStates) : (Ent.mk fs ck st).states = st := rfl

@[simp]
theorem Ent.checked_mk (fs : List (String × Val)) (ck : List (String × Bool))
    (st : ModStates) : (Ent.mk fs ck st).checked = ck := rfl

@[simp]
theorem Ent.states_setChecked (e : Ent) (f : String) :
    (e.setChecked f).states = e.states := rfl

@[simp]
theorem Ent.states_setField (e : Ent) (f : String) (v : Val) :
    (e.setField f v).states = e.states := rfl

/-- The direct-field branch never touches the fetch/save states. -/
theorem validateDirect_states (fv : String → Val → Ent → Bool) (e : Ent)
    (f : String) : (validateDirect fv e f).2.states = e.states := by
  unfold validateDirect
  split
  · dsimp only
    split <;> simp
  · rfl

/-- One selector step never touches the instance's own states block
(it only flips `checked` flags and rewrites field values). -/
theorem runSel_states (assoc : String → Option AssocKind)
    (fv : String → Val → Ent → Bool) (e : Ent) (errors : ValErrors)
    (s : Sel) : (runSel assoc fv e errors s).2.states = e.states := by
  cases s with
  | direct f =>
      rw [runSel]
      rcases hvd : validateDirect fv e f with ⟨err, e2⟩
      have := validateDirect_states fv e f
      rw [hvd] at this
      simpa using this
  | nested f sub =>
      rw [runSel]
      by_cases hf : e.hasField f
      · simp only [hf, if_true]
        rcases hvd : validateDirect fv (e.setChecked f) f with ⟨err1, e2⟩
        have he2 : e2.states = e.states := by
          have := validateDirect_states fv (e.setChecked f) f
          rw [hvd] at this
          simpa using this
        rcases sub with _ | fl2
        · simpa using he2
        · simp only []
          rcases assoc f with _ | k
          · simpa using he2
          · rcases k with _ | _ | _ <;> simp only []
            · rcases hg : e2.getField f with _ | s2 | nested | items <;>
                simp [he2]
            · rcases hg : e2.getField f with _ | s2 | nested | items <;>
                simp [he2]
            · rcases hg : e2.getField f with _ | s2 | nested | items <;>
                simp [he2]
      · simp [hf]

/-- The selector-list loop never touches the instance's own states. -/
theorem runSelList_states (assoc : String → Option AssocKind)
    (fv : String → Val → Ent → Bool) (e : Ent) (errors : ValErrors)
    (fl : List Sel) : (runSelList assoc fv e errors fl).2.states = e.states := by
  induction fl generalizing e errors with
  | nil => rw [runSelList]
  | cons s rest ih =>
      rw [runSelList]
      rcases hs : runSel assoc fv e errors s with ⟨errors2, e2⟩
      have he2 : e2.states = e.states := by
        have := runSel_states assoc fv e errors s
        rw [hs] at this
        simpa using this
      simpa [he2] using ih e2 errors2

/-- C9: any call to `valid` leaves the save track cleared — it resets
`saveInProgress`, `saveSuccess` and `saveFailure` before evaluating the
selectors, and the validation walk never writes the states block, so a
previously recorded save outcome is no longer observable afterwards,
whatever the validation result. -/
theorem valid_resets_save_track (assoc : String → Option AssocKind)
    (fv : String → Val → Ent → Bool) (e : Ent) (fl : List Sel) :
    (validCall assoc fv e fl).2.states.saveInProgress = false ∧
    (validCall assoc fv e fl).2.states.saveSuccess = false ∧
    (validCall assoc fv e fl).2.states.saveFailure = false := by
  have h := runSelList_states assoc fv e.resetSaveStates none fl
  have hval : (validCall assoc fv e fl).2 =
      (runSelList assoc fv e.resetSaveStates none fl).2 := by
    unfold validCall getValidationErrors
    dsimp only
  rw [hval, h]
  simp [Ent.resetSaveStates]

/-- C8: validating a field name that is not an own property of the
entity as a direct selector produces the error object `{f:
{error: NOT_FOUND}}` and returns the instance untouched — in
particular no validator entry's `checked` flag changes. -/
theorem validate_missing_direct_field (assoc : String → Option AssocKind)
    (fv : String → Val → Ent → Bool) (e : Ent) (f : String)
    (h : e.hasField f = false) :
    getValidationErrors assoc fv e [Sel.direct f] =
      (some [(f, ErrTree.notFound)], e) ∧
    (getValidationErrors assoc fv e [Sel.direct f]).2.checked = e.checked := by
  have hstep : runSel assoc fv e none (Sel.direct f) =
      (some [(f, ErrTree.notFound)], e) := by
    rw [runSel]
    unfold validateDirect
    simp [h, mergeErrors, setEntry]
  have hmain : getValidationErrors assoc fv e [Sel.direct f] =
      (some [(f, ErrTree.notFound)], e) := by
    unfold getValidationErrors
    rw [runSelList, hstep]
    dsimp only
    rw [runSelList]
  exact ⟨hmain, by rw [hmain]⟩

/-! ## Serializer (`_beforeSaveItem`, src/src/model.js lines 318-336)

The loop iterates the validator table (the `checked` column drives the
iteration, `isValid` is the closure `fv`), reads the current field
value, and writes `beforeSave`-transformed values into the fresh plain
object `newItem` (object assignment modelled by `setEntry`).  `bs f v`
stands for `this.constructor.schema[f].type.beforeSave(v, options)`. -/

/-- `_beforeSaveItem(options)`. -/
def beforeSaveItem (fv : String → Val → Ent → Bool) (bs : String → Val → Val)
    (e : Ent) (removeInvalid : Bool) : List (String × Val) :=
  e.checked.foldl
    (fun newItem p =>
      let value := e.getField p.1
      if removeInvalid then
        if p.2 && fv p.1 value e then
          setEntry newItem p.1 (bs p.1 value)
        else
          newItem
      else
        setEntry newItem p.1 (bs p.1 value))
    []

/-- Object assignment on a fresh key is an append. -/
theorem setEntry_append {β : Type} (acc : List (String × β)) (f : String)
    (v : β) (h : f ∉ acc.map Prod.fst) : setEntry acc f v = acc ++ [(f, v)] := by
  induction acc with
  | nil => rfl
  | cons p t ih =>
      simp only [List.map_cons, List.mem_cons] at h
      push_neg at h
      rw [setEntry]
      rw [if_neg (by simpa using Ne.symm h.1)]
      rw [ih h.2]
      rfl

/-- Unrolled specification of the serializer loop: over validator
entries with pairwise distinct and accumulator-fresh keys, the fold
appends exactly the entries that pass the `removeInvalid` filter,
transformed by `beforeSave`. -/
theorem beforeSave_foldl (fv : String → Val → Ent → Bool)
    (bs : String → Val → Val) (e : Ent) (ri : Bool)
    (l : List (String × Bool)) (acc : List (String × Val))
    (hnodup : (l.map Prod.fst).Nodup)
    (hdisj : ∀ g ∈ l.map Prod.fst, g ∉ acc.map Prod.fst) :
    l.foldl
      (fun newItem p =>
        let value := e.getField p.1
        if ri then
          if p.2 && fv p.1 value e then
            setEntry newItem p.1 (bs p.1 value)
          else
            newItem
        else
          setEntry newItem p.1 (bs p.1 value))
      acc =
    acc ++ (l.filter
        (fun p => !ri || (p.2 && fv p.1 (e.getField p.1) e))).map
      (fun p => (p.1, bs p.1 (e.getField p.1))) := by
  cases ri with
  | false =>
      simp only [Bool.false_eq_true, if_false, Bool.not_false, Bool.true_or,
        List.filter_true]
      induction l generalizing acc with
      | nil => simp
      | cons p t ih =>
          simp only [List.map_cons, List.nodup_cons] at hnodup
          have hp : p.1 ∉ acc.map Prod.fst := hdisj p.1 (by simp)
          have hset : setEntry acc p.1 (bs p.1 (e.getField p.1)) =
              acc ++ [(p.1, bs p.1 (e.getField p.1))] :=
            setEntry_append acc _ _ hp
          have hdisj2 : ∀ g ∈ t.map Prod.fst,
              g ∉ (acc ++ [(p.1, bs p.1 (e.getField p.1))]).map Prod.fst := by
            intro g hg
            simp only [List.map_append, List.mem_append, List.map_cons,
              List.map_nil, List.mem_singleton]
            push_neg
            refine ⟨hdisj g (by simp [hg]), ?_⟩
            intro hgp
            rw [hgp] at hg
            exact hnodup.1 hg
          rw [List.foldl_cons]
          rw [hset, ih _ hnodup.2 hdisj2]
          simp
  | true =>
      simp only [if_true, Bool.not_true, Bool.false_or]
      induction l generalizing acc with
      | nil => simp
      | cons p t ih =>
          simp only [List.map_cons, List.nodup_cons] at hnodup
          have hp : p.1 ∉ acc.map Prod.fst := hdisj p.1 (by simp)
          have hset : setEntry acc p.1 (bs p.1 (e.getField p.1)) =
              acc ++ [(p.1, bs p.1 (e.getField p.1))] :=
            setEntry_append acc _ _ hp
          have hdisj2 : ∀ g ∈ t.map Prod.fst,
              g ∉ (acc ++ [(p.1, bs p.1 (e.getField p.1))]).map Prod.fst := by
            intro g hg
            simp only [List.map_append, List.mem_append, List.map_cons,
              List.map_nil, List.mem_singleton]
            push_neg
            refine ⟨hdisj g (by simp [hg]), ?_⟩
            intro hgp
            rw [hgp] at hg
            exact hnodup.1 hg
          rw [List.foldl_cons]
          rcases hcond : p.2 && fv p.1 (e.getField p.1) e with _ | _
          · have hacc : (if (false = true) then
                setEntry acc p.1 (bs p.1 (e.getField p.1)) else acc) = acc := by
              simp
            rw [hacc, ih _ hnodup.2 (fun g hg => hdisj g (by simp [hg]))]
            simp [List.filter_cons, hcond]
          · have hacc : (if (true = true) then
                setEntry acc p.1 (bs p.1 (e.getField p.1)) else acc) =
                setEntry acc p.1 (bs p.1 (e.getField p.1)) := by
              simp
            rw [hacc, hset, ih _ hnodup.2 hdisj2]
            simp [List.filter_cons, hcond]

/-- C5: serialization iterates exactly the validator table: with
`removeInvalid` a field is emitted if and only if its validator entry
is checked and its `isValid` holds for the current value, without
`removeInvalid` every validator entry is emitted; and every emitted
value is the `beforeSave` transform of the field's current value.  The
`Nodup` hypothesis reflects that the validator is a JavaScript object,
whose keys are unique. -/
theorem beforeSaveItem_spec (fv : String → Val → Ent → Bool)
    (bs : String → Val → Val) (e : Ent) (ri : Bool)
    (hnodup : (e.checked.map Prod.fst).Nodup) :
    beforeSaveItem fv bs e ri =
      (e.checked.filter
          (fun p => !ri || (p.2 && fv p.1 (e.getField p.1) e))).map
        (fun p => (p.1, bs p.1 (e.getField p.1))) ∧
    ∀ (f : String) (r : Val),
      ((f, r) ∈ beforeSaveItem fv bs e ri ↔
        ∃ ck : Bool, (f, ck) ∈ e.checked ∧
          (ri = true → ck = true ∧ fv f (e.getField f) e = true) ∧
          r = bs f (e.getField f)) := by
  have hmain : beforeSaveItem fv bs e ri =
      (e.checked.filter
          (fun p => !ri || (p.2 && fv p.1 (e.getField p.1) e))).map
        (fun p => (p.1, bs p.1 (e.getField p.1))) := by
    unfold beforeSaveItem
    rw [beforeSave_foldl fv bs e ri e.checked [] hnodup (by simp)]
    simp
  refine ⟨hmain, ?_⟩
  intro f r
  rw [hmain]
  constructor
  · intro hmem
    obtain ⟨p, hp, hpe⟩ := List.mem_map.1 hmem
    obtain ⟨hpmem, hpf⟩ := List.mem_filter.1 hp
    obtain ⟨hf1, hf2⟩ := Prod.mk.injEq .. ▸ hpe
    refine ⟨p.2, ?_, ?_, hf2.symm ▸ (by rw [← hf1])⟩
    · rw [← hf1]
      exact hpmem
    · intro hritrue
      rw [hritrue] at hpf
      simp only [Bool.not_true, Bool.false_or, Bool.and_eq_true] at hpf
      rw [← hf1]
      exact hpf
  · rintro ⟨ck, hmem, hcond, hr⟩
    refine List.mem_map.2 ⟨(f, ck), List.mem_filter.2 ⟨hmem, ?_⟩, by rw [hr]⟩
    rcases hri2 : ri with _ | _
    · simp
    · obtain ⟨h1, h2⟩ := hcond hri2
      simp [h1, h2]

/-! ## Paginated-envelope detection
(`_hasMatchedCollectionPattern`, src/src/model.js lines 66-71, and the
response-processing step of `fetch`, lines 839-852) -/

/-- A parsed JSON response body. -/
inductive SData where
  | prim (s : String)
  | num (n : Int)
  | arr (xs : List SData)
  | obj (props : List (String × SData))
deriving Repr

/-- The `has` utility: `Object.prototype.hasOwnProperty.call(o, k)`.
Objects own their keys; arrays and strings own their index keys and
`length`; number primitives own nothing. -/
def hasOwn : SData → String → Bool
  | SData.obj props, k => props.any (fun p => p.1 == k)
  | SData.arr xs, k =>
      k == "length" || (List.range xs.length).any (fun i => toString i == k)
  | SData.prim s, k =>
      k == "length" || (List.range s.length).any (fun i => toString i == k)
  | SData.num _, _ => false

/-- Property read `o[k]`; `none` is JavaScript `undefined`. -/
def SData.getProp (d : SData) (k : String) : Option SData :=
  match d with
  | SData.obj props => (props.find? (fun p => p.1 == k)).map Prod.snd
  | SData.arr xs =>
      if k == "length" then some (SData.num xs.length)
      else
        match (List.range xs.length).find? (fun i => toString i == k) with
        | some i => xs.get? i
        | none => none
  | SData.prim s =>
      if k == "length" then some (SData.num s.length)
      else
        match (List.range s.length).find? (fun i => toString i == k) with
        | some i => (s.toList.get? i).map (fun c => SData.prim (String.mk [c]))
        | none => none
  | SData.num _ => none

/-- The configured envelope keys (`collectionDataKey` defaults to
`rows`, `collectionCountKey` defaults to `count`,
src/src/model.js lines 146-147). -/
structure EnvelopeCfg where
  collectionDataKey : String
  collectionCountKey : String
deriving Repr

/-- The default envelope configuration. -/
def defaultEnvelopeCfg : EnvelopeCfg :=
  { collectionDataKey := "rows", collectionCountKey := "count" }

/-- `_hasMatchedCollectionPattern(serverData)`. -/
def hasMatchedCollectionPattern (cfg : EnvelopeCfg) (serverData : SData) : Bool :=
  hasOwn serverData cfg.collectionCountKey &&
  hasOwn serverData cfg.collectionDataKey

/-- The data-selection step of `fetch` after a successful response
(src/src/model.js lines 841-851): on an envelope match the records
value becomes the construction payload and the count value becomes the
`count` option; otherwise the raw body itself is the payload and no
count option is set. -/
def processServerData (cfg : EnvelopeCfg) (serverData : SData) :
    Option SData × Option SData :=
  if hasMatchedCollectionPattern cfg serverData then
    (serverData.getProp cfg.collectionDataKey,
     serverData.getProp cfg.collectionCountKey)
  else
    (some serverData, none)

/-- `hasOwn` answers exactly whether the property read succeeds. -/
theorem hasOwn_iff_getProp_isSome (d : SData) (k : String) :
    hasOwn d k = true ↔ (d.getProp k).isSome = true := by
  cases d with
  | num n => simp [hasOwn, SData.getProp]
  | obj props =>
      unfold hasOwn SData.getProp
      rcases hf : props.find? (fun p => p.1 == k) with _ | p
      · simp only [hf, Option.map_none', Option.isSome_none]
        constructor
        · intro h
          obtain ⟨x, hx, hpx⟩ := List.any_eq_true.1 h
          exact absurd hpx ((List.find?_eq_none.1 hf) x hx)
        · intro h
          exact absurd h (by simp)
      · simp only [hf, Option.map_some', Option.isSome_some]
        have hp2 := List.find?_some hf
        exact iff_of_true
          (List.any_eq_true.2 ⟨p, List.mem_of_find?_eq_some hf, hp2⟩)
          trivial
  | arr xs =>
      unfold hasOwn SData.getProp
      by_cases hk : (k == "length") = true
      · simp [hk]
      · have hkb : (k == "length") = false := by simpa using hk
        simp only [hkb, Bool.false_or, Bool.false_eq_true, if_false]
        rcases hf : (List.range xs.length).find? (fun i => toString i == k) with _ | i
        · simp only [hf, Option.isSome_none]
          constructor
          · intro h
            obtain ⟨x, hx, hpx⟩ := List.any_eq_true.1 h
            exact absurd hpx ((List.find?_eq_none.1 hf) x hx)
          · intro h
            exact absurd h (by simp)
        · simp only [hf]
          have hmem := List.mem_of_find?_eq_some hf
          have hlt : i < xs.length := List.mem_range.1 hmem
          rw [List.get?_eq_get hlt]
          have hp2 := List.find?_some hf
          exact iff_of_true
            (List.any_eq_true.2 ⟨i, hmem, hp2⟩) (by simp)
  | prim s =>
      unfold hasOwn SData.getProp
      by_cases hk : (k == "length") = true
      · simp [hk]
      · have hkb : (k == "length") = false := by simpa using hk
        simp only [hkb, Bool.false_or, Bool.false_eq_true, if_false]
        rcases hf : (List.range s.length).find? (fun i => toString i == k) with _ | i
        · simp only [hf, Option.isSome_none]
          constructor
          · intro h
            obtain ⟨x, hx, hpx⟩ := List.any_eq_true.1 h
            exact absurd hpx ((List.find?_eq_none.1 hf) x hx)
          · intro h
            exact absurd h (by simp)
        · simp only [hf]
          have hmem := List.mem_of_find?_eq_some hf
          have hlt : i < s.toList.length := List.mem_range.1 hmem
          rw [List.get?_eq_get hlt]
          have hp2 := List.find?_some hf
          exact iff_of_true
            (List.any_eq_true.2 ⟨i, hmem, hp2⟩) (by simp)

/-- C6: a response body is treated as a paginated collection envelope
if and only if it owns both the configured count key and the configured
records key; in that case the records value becomes the construction
payload and the count value the count option, and in every other case
the raw body itself is the payload with no count option. -/
theorem envelope_detection_spec (cfg : EnvelopeCfg) (d : SData) :
    (hasMatchedCollectionPattern cfg d = true ↔
      (hasOwn d cfg.collectionCountKey = true ∧
       hasOwn d cfg.collectionDataKey = true)) ∧
    (hasMatchedCollectionPattern cfg d = true →
      ∃ records cnt,
        d.getProp cfg.collectionDataKey = some records ∧
        d.getProp cfg.collectionCountKey = some cnt ∧
        processServerData cfg d = (some records, some cnt)) ∧
    (hasMatchedCollectionPattern cfg d = false →
      processServerData cfg d = (some d, none)) := by
  refine ⟨?_, ?_, ?_⟩
  · simp [hasMatchedCollectionPattern]
  · intro hm
    obtain ⟨hcnt, hdat⟩ : hasOwn d cfg.collectionCountKey = true ∧
        hasOwn d cfg.collectionDataKey = true := by
      simpa [hasMatchedCollectionPattern] using hm
    obtain ⟨records, hrec⟩ := Option.isSome_iff_exists.1
      ((hasOwn_iff_getProp_isSome d cfg.collectionDataKey).1 hdat)
    obtain ⟨cnt, hcnt2⟩ := Option.isSome_iff_exists.1
      ((hasOwn_iff_getProp_isSome d cfg.collectionCountKey).1 hcnt)
    exact ⟨records, cnt, hrec, hcnt2, by simp [processServerData, hm, hrec, hcnt2]⟩
  · intro hm
    simp [processServerData, hm]

/-! ## Raw-item synthesis (`_buildRawItem`, src/src/model.js lines
77-94)

`_buildRawItem` resolves the primary-key value with JavaScript `||`
over `item['primaryKey']`, `item[primaryKeyFieldname]` and the schema
default, then fills every schema field: the primary-key field with the
resolved key, supplied fields with the supplied value, and the rest
with their `defaultValue(primaryKey)`. -/

/-- A JavaScript primitive field value, as far as truthiness and the
raw-item synthesis observe it. -/
inductive JVal where
  | undef
  | jnull
  | jbool (b : Bool)
  | jnum (n : Int)
  | jstr (s : String)
deriving DecidableEq, Repr

/-- JavaScript truthiness: `undefined`, `null`, `false`, `0` and the
empty string are falsy. -/
def truthy : JVal → Bool
  | JVal.undef => false
  | JVal.jnull => false
  | JVal.jbool b => b
  | JVal.jnum n => n != 0
  | JVal.jstr s => s != ""

/-- JavaScript `a || b`: the first operand when truthy, else the
second. -/
def jsOr (a b : JVal) : JVal :=
  if truthy a then a else b

/-- Property read on a plain object (`undefined` when absent). -/
def getPropJ (item : List (String × JVal)) (f : String) : JVal :=
  match item.find? (fun p => p.1 == f) with
  | some p => p.2
  | none => JVal.undef

/-- `has(item, f)`. -/
def hasJ (item : List (String × JVal)) (f : String) : Bool :=
  item.any (fun p => p.1 == f)

/-- The compiled `defaultValue` of the schema field named `f`, a
function of the resolved primary key (`init` normalized every default
to a callable; a call with no argument passes `undefined`).  The code
reads `this.schema[primaryKeyFieldname]` unconditionally, so the model
is used under the hypothesis that the primary-key field is declared. -/
def schemaDefault (schema : List (String × (JVal → JVal))) (f : String) :
    JVal → JVal :=
  match schema.find? (fun p => p.1 == f) with
  | some p => p.2
  | none => fun _ => JVal.undef

/-- The primary-key resolution of `_buildRawItem` (line 81):
`item['primaryKey'] || item[this.primaryKeyFieldname] ||
this.schema[this.primaryKeyFieldname].defaultValue()`. -/
def resolvePrimaryKey (schema : List (String × (JVal → JVal)))
    (pkName : String) (item : List (String × JVal)) : JVal :=
  jsOr (getPropJ item "primaryKey")
    (jsOr (getPropJ item pkName) (schemaDefault schema pkName JVal.undef))

/-- `_buildRawItem(item)`. -/
def buildRawItem (schema : List (String × (JVal → JVal))) (pkName : String)
    (item : List (String × JVal)) : List (String × JVal) :=
  let primaryKey := resolvePrimaryKey schema pkName item
  schema.map (fun p =>
    if p.1 == pkName then
      (p.1, primaryKey)
    else if hasJ item p.1 then
      (p.1, getPropJ item p.1)
    else
      (p.1, p.2 primaryKey))

/-- Property read distributes over cons. -/
theorem getPropJ_cons (x : String × JVal) (l : List (String × JVal))
    (f : String) :
    getPropJ (x :: l) f = if x.1 == f then x.2 else getPropJ l f := by
  unfold getPropJ
  rcases h : (x.1 == f) with _ | _
  · simp [List.find?_cons, h]
  · simp [List.find?_cons, h]

/-- In the raw item built over the schema, the primary-key field holds
exactly the resolved primary-key value (stated for an arbitrary
resolved value so that induction on the schema goes through). -/
theorem getPropJ_map_pk (schema : List (String × (JVal → JVal)))
    (pkName : String) (item : List (String × JVal)) (pkVal : JVal)
    (hpk : pkName ∈ schema.map Prod.fst) :
    getPropJ (schema.map (fun p =>
      if p.1 == pkName then (p.1, pkVal)
      else if hasJ item p.1 then (p.1, getPropJ item p.1)
      else (p.1, p.2 pkVal))) pkName = pkVal := by
  induction schema with
  | nil => simp at hpk
  | cons q t ih =>
      have hpk2 : pkName = q.1 ∨ pkName ∈ t.map Prod.fst := by
        have h := hpk
        rw [List.map_cons, List.mem_cons] at h
        exact h
      by_cases hq : q.1 = pkName
      · simp [getPropJ_cons, hq]
      · have hpk3 : pkName ∈ t.map Prod.fst := by
          rcases hpk2 with h | h
          · exact absurd h.symm hq
          · exact h
        rcases hh : hasJ item q.1 with _ | _ <;>
          simpa [getPropJ_cons, hq, hh] using ih hpk3

/-- C10: the raw item stores, under the primary-key field, the value
resolved by truthiness: the supplied `primaryKey` property when truthy,
else the supplied primary-key field value when truthy, else the
schema-generated default — so a supplied but falsy primary-key value
(empty string, `0`, `null`, `false`) is discarded in favour of the
generated default. -/
theorem buildRawItem_primaryKey_by_truthiness
    (schema : List (String × (JVal → JVal))) (pkName : String)
    (item : List (String × JVal)) (hpk : pkName ∈ schema.map Prod.fst) :
    (getPropJ (buildRawItem schema pkName item) pkName =
      resolvePrimaryKey schema pkName item) ∧
    (truthy (getPropJ item "primaryKey") = true →
      getPropJ (buildRawItem schema pkName item) pkName =
        getPropJ item "primaryKey") ∧
    (truthy (getPropJ item "primaryKey") = false →
      truthy (getPropJ item pkName) = true →
      getPropJ (buildRawItem schema pkName item) pkName =
        getPropJ item pkName) ∧
    (truthy (getPropJ item "primaryKey") = false →
      truthy (getPropJ item pkName) = false →
      getPropJ (buildRawItem schema pkName item) pkName =
        schemaDefault schema pkName JVal.undef) := by
  have hmain : getPropJ (buildRawItem schema pkName item) pkName =
      resolvePrimaryKey schema pkName item :=
    getPropJ_map_pk schema pkName item _ hpk
  refine ⟨hmain, ?_, ?_, ?_⟩
  · intro h1
    rw [hmain]
    unfold resolvePrimaryKey jsOr
    rw [h1]
    simp
  · intro h1 h2
    rw [hmain]
    unfold resolvePrimaryKey jsOr
    rw [h1, h2]
    simp
  · intro h1 h2
    rw [hmain]
    unfold resolvePrimaryKey jsOr
    rw [h1, h2]
    simp

/-! ## Scalar field types DATE, DATEONLY and PHONE
(src/unnamed/part_006 lines 42-60 and 118-165; the same descriptors
appear in src/unnamed/part_000 with `beforeSerialize` spelled
`beforeSave`)

The date pipeline depends on two pieces of repository code that are not
under src/: the `parseDate` utility (imported from
`./utils/parseDate.js`) and the platform `Date` object with
`toISOString`/`getFullYear`/`getMonth`/`getDate`.  Both are modelled
from the spec below; the model represents a `Date` by its calendar
components with no time-zone distinction (the spec stringifies dates
"via ISO-8601" and requires DATEONLY to print the local day). -/

/-- The ASCII digit with value `k` (for `k < 10`). -/
def digitChar (k : Nat) : Char :=
  Char.ofNat (48 + k)

/-- The value of an ASCII digit character. -/
def charToDigit (c : Char) : Nat :=
  c.toNat - 48

/-- Two-digit zero-padded rendering, as `toISOString` prints month,
day, hour, minute and second. -/
def pad2 (n : Nat) : List Char :=
  [digitChar (n / 10), digitChar (n % 10)]

/-- Three-digit zero-padded rendering of the milliseconds. -/
def pad3 (n : Nat) : List Char :=
  [digitChar (n / 100), digitChar (n / 10 % 10), digitChar (n % 10)]

/-- Four-digit zero-padded rendering of the year. -/
def pad4 (n : Nat) : List Char :=
  [digitChar (n / 1000), digitChar (n / 100 % 10), digitChar (n / 10 % 10),
   digitChar (n % 10)]

/-- Decimal rendering, digit-count bounded by a fuel argument (the
fuel only serves structural recursion; `natToDecimal` supplies enough
of it for every input). -/
def natToDecimalAux : Nat → Nat → List Char
  | 0, n => [digitChar (n % 10)]
  | fuel + 1, n =>
      if n < 10 then [digitChar n]
      else natToDecimalAux fuel (n / 10) ++ [digitChar (n % 10)]

/-- Decimal rendering of a natural number, as JavaScript string
interpolation prints `getFullYear()`. -/
def natToDecimal (n : Nat) : List Char :=
  natToDecimalAux n n

/-- Modelled from the spec: the `prependZero` utility
(src/utils/prependZero.js, not under src/) pads a number below ten with
a leading zero. -/
def prependZero (n : Nat) : List Char :=
  if n < 10 then Char.ofNat 48 :: natToDecimal n else natToDecimal n

/-- A calendar date-time, the model of a JavaScript `Date`
(time-zone-free: local and UTC components coincide). -/
structure DateRec where
  year : Nat
  month : Nat
  day : Nat
  hour : Nat
  minute : Nat
  second : Nat
  ms : Nat
deriving DecidableEq, Repr

/-- The component ranges of a representable calendar date-time whose
year fits the fixed four-digit ISO-8601 rendering. -/
def validDate (d : DateRec) : Prop :=
  d.year ≤ 9999 ∧ 1 ≤ d.month ∧ d.month ≤ 12 ∧ 1 ≤ d.day ∧ d.day ≤ 31 ∧
  d.hour ≤ 23 ∧ d.minute ≤ 59 ∧ d.second ≤ 59 ∧ d.ms ≤ 999

instance (d : DateRec) : Decidable (validDate d) := by
  unfold validDate
  infer_instance

/-- A date-only value: midnight, with a year whose plain decimal
rendering already has four digits. -/
def validDateOnly (d : DateRec) : Prop :=
  1000 ≤ d.year ∧ d.year ≤ 9999 ∧ 1 ≤ d.month ∧ d.month ≤ 12 ∧
  1 ≤ d.day ∧ d.day ≤ 31 ∧ d.hour = 0 ∧ d.minute = 0 ∧ d.second = 0 ∧
  d.ms = 0

instance (d : DateRec) : Decidable (validDateOnly d) := by
  unfold validDateOnly
  infer_instance

/-- The character sequence of the canonical ISO-8601 UTC rendering
`YYYY-MM-DDTHH:mm:ss.sssZ`. -/
def formatISOList (d : DateRec) : List Char :=
  pad4 d.year ++ Char.ofNat 45 :: pad2 d.month ++ Char.ofNat 45 :: pad2 d.day ++
    Char.ofNat 84 :: pad2 d.hour ++ Char.ofNat 58 :: pad2 d.minute ++
    Char.ofNat 58 :: pad2 d.second ++ Char.ofNat 46 :: pad3 d.ms ++
    [Char.ofNat 90]

/-- Modelled from the spec: `Date.prototype.toISOString` of the
platform `Date` collaborator (ISO-8601 stringification). -/
def toISOString (d : DateRec) : String :=
  String.mk (formatISOList d)

/-- Modelled from the spec: the `parseDate` utility
(src/utils/parseDate.js, not under src/), a date-format recognizer that
accepts a date-only string `YYYY-MM-DD` (at midnight) or a full
ISO-8601 UTC string `YYYY-MM-DDTHH:mm:ss.sssZ`, and rejects anything
else. -/
def parseDateList (l : List Char) : Option DateRec :=
  match l with
  | [y1, y2, y3, y4, sep1, m1, m2, sep2, d1, d2] =>
      if y1.isDigit ∧ y2.isDigit ∧ y3.isDigit ∧ y4.isDigit ∧
          sep1 = Char.ofNat 45 ∧ m1.isDigit ∧ m2.isDigit ∧
          sep2 = Char.ofNat 45 ∧ d1.isDigit ∧ d2.isDigit then
        let y := 1000 * charToDigit y1 + 100 * charToDigit y2 +
          10 * charToDigit y3 + charToDigit y4
        let mo := 10 * charToDigit m1 + charToDigit m2
        let dy := 10 * charToDigit d1 + charToDigit d2
        if 1 ≤ mo ∧ mo ≤ 12 ∧ 1 ≤ dy ∧ dy ≤ 31 then
          some { year := y, month := mo, day := dy,
                 hour := 0, minute := 0, second := 0, ms := 0 }
        else
          none
      else
        none
  | [y1, y2, y3, y4, sep1, m1, m2, sep2, d1, d2, sept, h1, h2, sep3,
     n1, n2, sep4, s1, s2, sep5, x1, x2, x3, sepz] =>
      if y1.isDigit ∧ y2.isDigit ∧ y3.isDigit ∧ y4.isDigit ∧
          sep1 = Char.ofNat 45 ∧ m1.isDigit ∧ m2.isDigit ∧
          sep2 = Char.ofNat 45 ∧ d1.isDigit ∧ d2.isDigit ∧
          sept = Char.ofNat 84 ∧ h1.isDigit ∧ h2.isDigit ∧
          sep3 = Char.ofNat 58 ∧ n1.isDigit ∧ n2.isDigit ∧
          sep4 = Char.ofNat 58 ∧ s1.isDigit ∧ s2.isDigit ∧
          sep5 = Char.ofNat 46 ∧ x1.isDigit ∧ x2.isDigit ∧ x3.isDigit ∧
          sepz = Char.ofNat 90 then
        let y := 1000 * charToDigit y1 + 100 * charToDigit y2 +
          10 * charToDigit y3 + charToDigit y4
        let mo := 10 * charToDigit m1 + charToDigit m2
        let dy := 10 * charToDigit d1 + charToDigit d2
        let h := 10 * charToDigit h1 + charToDigit h2
        let mi := 10 * charToDigit n1 + charToDigit n2
        let sec := 10 * charToDigit s1 + charToDigit s2
        let millis := 100 * charToDigit x1 + 10 * charToDigit x2 +
          charToDigit x3
        if 1 ≤ mo ∧ mo ≤ 12 ∧ 1 ≤ dy ∧ dy ≤ 31 ∧ h ≤ 23 ∧ mi ≤ 59 ∧
            sec ≤ 59 then
          some { year := y, month := mo, day := dy,
                 hour := h, minute := mi, second := sec, ms := millis }
        else
          none
      else
        none
  | _ => none

/-- Modelled from the spec: `parseDate` on a string value. -/
def parseDate (s : String) : Option DateRec :=
  parseDateList s.toList

/-- A scalar field value as the DATE/DATEONLY descriptors observe it:
`null`, a string, a `Date`, or some other value (number, boolean,
object), for which only the failing `isString`/`isDate` tests
matter. -/
inductive FVal where
  | fnull
  | fstr (s : String)
  | fdate (d : DateRec)
  | fother (tag : String)
deriving DecidableEq, Repr

/-- `DATE.beforeBuild` (src/unnamed/part_006 lines 156-164): parse a
non-empty string, pass a `Date` through, and map everything else to
`null`.  A string the recognizer rejects yields `null` (the model of a
failed parse). -/
def DATE.beforeBuild : FVal → FVal
  | FVal.fstr s =>
      if s = "" then FVal.fnull
      else
        match parseDate s with
        | some d => FVal.fdate d
        | none => FVal.fnull
  | FVal.fdate d => FVal.fdate d
  | _ => FVal.fnull

/-- `DATE.beforeSerialize` (src/unnamed/part_006 lines 149-155):
`toISOString` on a `Date`, `null` otherwise. -/
def DATE.beforeSerialize : FVal → FVal
  | FVal.fdate d => FVal.fstr (toISOString d)
  | _ => FVal.fnull

/-- `DATEONLY.beforeBuild` (src/unnamed/part_006 lines 135-143),
identical to the DATE one. -/
def DATEONLY.beforeBuild : FVal → FVal
  | FVal.fstr s =>
      if s = "" then FVal.fnull
      else
        match parseDate s with
        | some d => FVal.fdate d
        | none => FVal.fnull
  | FVal.fdate d => FVal.fdate d
  | _ => FVal.fnull

/-- `DATEONLY.beforeSerialize` (src/unnamed/part_006 lines 122-134):
print `getFullYear()`, a dash, the zero-padded `getMonth() + 1`, a
dash, and the zero-padded `getDate()`; `null` on non-dates.  In the
time-zone-free date model the local components are the stored
components. -/
def DATEONLY.beforeSerialize : FVal → FVal
  | FVal.fdate d =>
      FVal.fstr (String.mk (natToDecimal d.year ++
        Char.ofNat 45 :: prependZero d.month ++
        Char.ofNat 45 :: prependZero d.day))
  | _ => FVal.fnull

/-- The loop of `PHONE.beforeSerialize` (src/unnamed/part_006 lines
46-59): keep a leading plus while the accumulator is still empty, keep
ASCII digits (the characters on which `Number.parseInt` yields an
integer), and drop everything else. -/
def sanitizePhoneAux (acc : List Char) : List Char → List Char
  | [] => acc
  | n :: rest =>
      if (acc.isEmpty && n == Char.ofNat 43) || n.isDigit then
        sanitizePhoneAux (acc ++ [n]) rest
      else
        sanitizePhoneAux acc rest

/-- `PHONE.beforeSerialize` on a string value (non-string values would
fault on iteration and are not round-trippable). -/
def PHONE.beforeSerialize (s : String) : String :=
  String.mk (sanitizePhoneAux [] s.toList)

/-- `PHONE.beforeBuild` is the identity (explicitly in
src/unnamed/part_000 line 67, and by the registry default in
src/unnamed/part_006 lines 299-301). -/
def PHONE.beforeBuild (s : String) : String := s

/-- The DATE values whose build-serialize round trip is the identity:
`null` and canonical ISO-8601 UTC strings of representable dates. -/
def dateRoundTrippable (v : FVal) : Prop :=
  v = FVal.fnull ∨ ∃ d, validDate d ∧ v = FVal.fstr (toISOString d)

/-- The DATEONLY values whose round trip is the identity: `null` and
`YYYY-MM-DD` renderings of four-digit-year midnights. -/
def dateonlyRoundTrippable (v : FVal) : Prop :=
  v = FVal.fnull ∨ ∃ d, validDateOnly d ∧
    v = FVal.fstr (String.mk (natToDecimal d.year ++
      Char.ofNat 45 :: prependZero d.month ++
      Char.ofNat 45 :: prependZero d.day))

/-- The PHONE strings the sanitizer leaves unchanged: an optional
leading plus followed by ASCII digits (the head may be a plus or a
digit, every later character is a digit). -/
def phoneRoundTrippable (s : String) : Prop :=
  (∀ c ∈ s.toList.take 1, c = Char.ofNat 43 ∨ c.isDigit = true) ∧
  ∀ x ∈ s.toList.drop 1, x.isDigit = true

/-! ### Digit and rendering lemmas -/

/-- Decoding inverts encoding on single digits. -/
theorem charToDigit_digitChar : ∀ k, k < 10 → charToDigit (digitChar k) = k := by
  decide

/-- Encoded digits pass the digit test. -/
theorem isDigit_digitChar : ∀ k, k < 10 → (digitChar k).isDigit = true := by
  decide

/-- A fuel step below ten. -/
theorem natToDecimalAux_small (fuel n : Nat) (h : n < 10) :
    natToDecimalAux fuel n = [digitChar n] := by
  cases fuel with
  | zero => simp [natToDecimalAux, Nat.mod_eq_of_lt h]
  | succ f => simp [natToDecimalAux, h]

/-- A fuel step at ten or above. -/
theorem natToDecimalAux_step (fuel n : Nat) (h : 10 ≤ n) :
    natToDecimalAux (fuel + 1) n =
      natToDecimalAux fuel (n / 10) ++ [digitChar (n % 10)] := by
  rw [show natToDecimalAux (fuel + 1) n =
    (if n < 10 then [digitChar n]
     else natToDecimalAux fuel (n / 10) ++ [digitChar (n % 10)]) from rfl]
  rw [if_neg (by omega)]

/-- With at least three units of fuel, a four-digit number renders to
its zero-padded four-digit form. -/
theorem natToDecimalAux_eq_pad4 (fuel y : Nat) (hf : 3 ≤ fuel)
    (h1 : 1000 ≤ y) (h2 : y ≤ 9999) : natToDecimalAux fuel y = pad4 y := by
  obtain ⟨f3, hf3⟩ : ∃ f3, fuel = f3 + 3 := ⟨fuel - 3, by omega⟩
  subst hf3
  rw [show f3 + 3 = (f3 + 2) + 1 from rfl, natToDecimalAux_step _ _ (by omega)]
  rw [show f3 + 2 = (f3 + 1) + 1 from rfl, natToDecimalAux_step _ _ (by omega)]
  rw [natToDecimalAux_step _ _ (by omega)]
  rw [natToDecimalAux_small _ _ (by omega : y / 10 / 10 / 10 < 10)]
  have e1 : y / 10 / 10 / 10 = y / 1000 := by omega
  have e2 : y / 10 / 10 % 10 = y / 100 % 10 := by
    have e : y / 10 / 10 = y / 100 := by omega
    rw [e]
  rw [e1, e2]
  simp [pad4]

/-- The decimal rendering of a four-digit number is its zero-padded
four-digit form. -/
theorem natToDecimal_eq_pad4 (y : Nat) (h1 : 1000 ≤ y) (h2 : y ≤ 9999) :
    natToDecimal y = pad4 y :=
  natToDecimalAux_eq_pad4 y y (by omega) h1 h2

/-- The decimal rendering of a two-digit number. -/
theorem natToDecimal_two (n : Nat) (h1 : 10 ≤ n) (h2 : n ≤ 99) :
    natToDecimal n = [digitChar (n / 10), digitChar (n % 10)] := by
  unfold natToDecimal
  obtain ⟨f, hf⟩ : ∃ f, n = f + 1 := ⟨n - 1, by omega⟩
  conv_lhs => rw [hf]
  rw [natToDecimalAux_step _ _ (by omega)]
  rw [natToDecimalAux_small _ _ (by omega : (f + 1) / 10 < 10), ← hf]
  rfl

/-- `prependZero` agrees with the two-digit zero-padded rendering. -/
theorem prependZero_eq_pad2 (n : Nat) (h : n ≤ 99) :
    prependZero n = pad2 n := by
  unfold prependZero
  by_cases h10 : n < 10
  · rw [if_pos h10]
    unfold natToDecimal
    rw [natToDecimalAux_small _ _ h10]
    have e1 : n / 10 = 0 := by omega
    have e2 : n % 10 = n := by omega
    simp [pad2, e1, e2, digitChar]
  · rw [if_neg h10, natToDecimal_two n (by omega) h]
    rfl

/-- Parsing inverts the full ISO-8601 rendering on representable
dates. -/
theorem parseDateList_formatISOList (d : DateRec) (h : validDate d) :
    parseDateList (formatISOList d) = some d := by
  obtain ⟨h1, h2, h3, h4, h5, h6, h7, h8, h9⟩ := h
  have hy : 1000 * charToDigit (digitChar (d.year / 1000)) +
      100 * charToDigit (digitChar (d.year / 100 % 10)) +
      10 * charToDigit (digitChar (d.year / 10 % 10)) +
      charToDigit (digitChar (d.year % 10)) = d.year := by
    rw [charToDigit_digitChar _ (by omega), charToDigit_digitChar _ (by omega),
      charToDigit_digitChar _ (by omega), charToDigit_digitChar _ (by omega)]
    omega
  have hmo : 10 * charToDigit (digitChar (d.month / 10)) +
      charToDigit (digitChar (d.month % 10)) = d.month := by
    rw [charToDigit_digitChar _ (by omega), charToDigit_digitChar _ (by omega)]
    omega
  have hdy : 10 * charToDigit (digitChar (d.day / 10)) +
      charToDigit (digitChar (d.day % 10)) = d.day := by
    rw [charToDigit_digitChar _ (by omega), charToDigit_digitChar _ (by omega)]
    omega
  have hh : 10 * charToDigit (digitChar (d.hour / 10)) +
      charToDigit (digitChar (d.hour % 10)) = d.hour := by
    rw [charToDigit_digitChar _ (by omega), charToDigit_digitChar _ (by omega)]
    omega
  have hmi : 10 * charToDigit (digitChar (d.minute / 10)) +
      charToDigit (digitChar (d.minute % 10)) = d.minute := by
    rw [charToDigit_digitChar _ (by omega), charToDigit_digitChar _ (by omega)]
    omega
  have hsec : 10 * charToDigit (digitChar (d.second / 10)) +
      charToDigit (digitChar (d.second % 10)) = d.second := by
    rw [charToDigit_digitChar _ (by omega), charToDigit_digitChar _ (by omega)]
    omega
  have hms : 100 * charToDigit (digitChar (d.ms / 100)) +
      10 * charToDigit (digitChar (d.ms / 10 % 10)) +
      charToDigit (digitChar (d.ms % 10)) = d.ms := by
    rw [charToDigit_digitChar _ (by omega), charToDigit_digitChar _ (by omega),
      charToDigit_digitChar _ (by omega)]
    omega
  simp only [formatISOList, pad4, pad2, pad3, List.cons_append,
    List.nil_append, List.append_assoc]
  rw [parseDateList]
  rw [if_pos ⟨isDigit_digitChar _ (by omega), isDigit_digitChar _ (by omega),
    isDigit_digitChar _ (by omega), isDigit_digitChar _ (by omega), rfl,
    isDigit_digitChar _ (by omega), isDigit_digitChar _ (by omega), rfl,
    isDigit_digitChar _ (by omega), isDigit_digitChar _ (by omega), rfl,
    isDigit_digitChar _ (by omega), isDigit_digitChar _ (by omega), rfl,
    isDigit_digitChar _ (by omega), isDigit_digitChar _ (by omega), rfl,
    isDigit_digitChar _ (by omega), isDigit_digitChar _ (by omega), rfl,
    isDigit_digitChar _ (by omega), isDigit_digitChar _ (by omega),
    isDigit_digitChar _ (by omega), rfl⟩]
  dsimp only
  rw [hy, hmo, hdy, hh, hmi, hsec, hms]
  rw [if_pos ⟨h2, h3, h4, h5, h6, h7, h8⟩]

/-- Parsing inverts the `YYYY-MM-DD` rendering on date-only values. -/
theorem parseDateList_dateonly (d : DateRec) (h : validDateOnly d) :
    parseDateList (natToDecimal d.year ++
      Char.ofNat 45 :: prependZero d.month ++
      Char.ofNat 45 :: prependZero d.day) = some d := by
  obtain ⟨h1, h2, h3, h4, h5, h6, h7, h8, h9, h10⟩ := h
  have hy : 1000 * charToDigit (digitChar (d.year / 1000)) +
      100 * charToDigit (digitChar (d.year / 100 % 10)) +
      10 * charToDigit (digitChar (d.year / 10 % 10)) +
      charToDigit (digitChar (d.year % 10)) = d.year := by
    rw [charToDigit_digitChar _ (by omega), charToDigit_digitChar _ (by omega),
      charToDigit_digitChar _ (by omega), charToDigit_digitChar _ (by omega)]
    omega
  have hmo : 10 * charToDigit (digitChar (d.month / 10)) +
      charToDigit (digitChar (d.month % 10)) = d.month := by
    rw [charToDigit_digitChar _ (by omega), charToDigit_digitChar _ (by omega)]
    omega
  have hdy : 10 * charToDigit (digitChar (d.day / 10)) +
      charToDigit (digitChar (d.day % 10)) = d.day := by
    rw [charToDigit_digitChar _ (by omega), charToDigit_digitChar _ (by omega)]
    omega
  rw [natToDecimal_eq_pad4 d.year h1 h2, prependZero_eq_pad2 d.month (by omega),
    prependZero_eq_pad2 d.day (by omega)]
  simp only [pad4, pad2, List.cons_append, List.nil_append, List.append_assoc]
  rw [parseDateList]
  rw [if_pos ⟨isDigit_digitChar _ (by omega), isDigit_digitChar _ (by omega),
    isDigit_digitChar _ (by omega), isDigit_digitChar _ (by omega), rfl,
    isDigit_digitChar _ (by omega), isDigit_digitChar _ (by omega), rfl,
    isDigit_digitChar _ (by omega), isDigit_digitChar _ (by omega)⟩]
  dsimp only
  rw [hy, hmo, hdy]
  rw [if_pos ⟨h3, h4, h5, h6⟩]
  refine congrArg some ?_
  cases d
  simp at h7 h8 h9 h10 ⊢
  exact ⟨h7.symm, h8.symm, h9.symm, h10.symm⟩

/-- The canonical ISO rendering is never the empty string. -/
theorem toISOString_ne_empty (d : DateRec) : toISOString d ≠ "" := by
  intro heq
  have h2 := congrArg String.toList heq
  simp [toISOString, formatISOList, pad4] at h2

/-- `parseDate` inverts `toISOString` on representable dates. -/
theorem parseDate_toISOString (d : DateRec) (h : validDate d) :
    parseDate (toISOString d) = some d :=
  parseDateList_formatISOList d h

/-- DATE round trip on the round-trippable values. -/
theorem date_roundtrip (v : FVal) (h : dateRoundTrippable v) :
    DATE.beforeSerialize (DATE.beforeBuild v) = v := by
  rcases h with h | ⟨d, hd, h⟩
  · subst h
    rfl
  · subst h
    rw [DATE.beforeBuild]
    rw [if_neg (toISOString_ne_empty d), parseDate_toISOString d hd]
    rfl

/-- DATEONLY round trip on the round-trippable values. -/
theorem dateonly_roundtrip (v : FVal) (h : dateonlyRoundTrippable v) :
    DATEONLY.beforeSerialize (DATEONLY.beforeBuild v) = v := by
  rcases h with h | ⟨d, hd, h⟩
  · subst h
    rfl
  · subst h
    rw [DATEONLY.beforeBuild]
    have hne : String.mk (natToDecimal d.year ++
        Char.ofNat 45 :: prependZero d.month ++
        Char.ofNat 45 :: prependZero d.day) ≠ "" := by
      intro heq
      have h2 := congrArg String.toList heq
      rw [natToDecimal_eq_pad4 d.year hd.1 hd.2.1] at h2
      simp [pad4] at h2
    rw [if_neg hne]
    have hp : parseDate (String.mk (natToDecimal d.year ++
        Char.ofNat 45 :: prependZero d.month ++
        Char.ofNat 45 :: prependZero d.day)) = some d :=
      parseDateList_dateonly d hd
    rw [hp]
    rfl

/-- Dropping nothing: the sanitizer keeps a block of digits whatever
the accumulator already holds. -/
theorem sanitizePhoneAux_digits (l : List Char)
    (h : ∀ x ∈ l, x.isDigit = true) :
    ∀ acc, sanitizePhoneAux acc l = acc ++ l := by
  induction l with
  | nil =>
      intro acc
      simp [sanitizePhoneAux]
  | cons c rest ih =>
      intro acc
      rw [sanitizePhoneAux]
      rw [if_pos (by simp [h c (by simp)])]
      rw [ih (fun x hx => h x (by simp [hx])) (acc ++ [c])]
      simp

/-- PHONE round trip on the round-trippable strings. -/
theorem phone_roundtrip (s : String) (h : phoneRoundTrippable s) :
    PHONE.beforeSerialize (PHONE.beforeBuild s) = s := by
  rw [PHONE.beforeBuild]
  have hlist : sanitizePhoneAux [] s.toList = s.toList := by
    unfold phoneRoundTrippable at h
    rcases hl : s.toList with _ | ⟨c, rest⟩
    · simp [sanitizePhoneAux]
    · rw [hl] at h
      have hc : c = Char.ofNat 43 ∨ c.isDigit = true := h.1 c (by simp)
      have hrest : ∀ x ∈ rest, x.isDigit = true := fun x hx => h.2 x (by simpa using hx)
      have hcond : ((([] : List Char).isEmpty && (c == Char.ofNat 43)) ||
          c.isDigit) = true := by
        rcases hc with hc | hc
        · simp [hc]
        · simp [hc]
      rw [sanitizePhoneAux, if_pos hcond,
        sanitizePhoneAux_digits rest hrest ([] ++ [c])]
      rfl
  show String.mk (sanitizePhoneAux [] s.toList) = s
  rw [hlist]
  rfl

/-- C3: for every build-serialize round-trippable scalar value,
composing `beforeBuild` then `beforeSerialize` is the identity, for the
DATE, DATEONLY and PHONE field types.  The round-trippable values are
characterized concretely: `null` and canonical ISO-8601 strings of
representable dates for DATE, `null` and `YYYY-MM-DD` renderings of
four-digit-year midnights for DATEONLY, and already-sanitized phone
strings (optional leading plus, then digits) for PHONE. -/
theorem scalar_roundtrip_spec :
    (∀ v : FVal, dateRoundTrippable v →
      DATE.beforeSerialize (DATE.beforeBuild v) = v) ∧
    (∀ v : FVal, dateonlyRoundTrippable v →
      DATEONLY.beforeSerialize (DATEONLY.beforeBuild v) = v) ∧
    (∀ s : String, phoneRoundTrippable s →
      PHONE.beforeSerialize (PHONE.beforeBuild s) = s) :=
  ⟨date_roundtrip, dateonly_roundtrip, phone_roundtrip⟩

/-! ## Concrete instances for the witnesses -/

/-- A concrete schema field configuration. -/
def confW : FieldConfChecks Bool Bool :=
  { type := { isBlank := fun v => !v, isValid := fun v => v },
    allowBlank := fun _ _ => true,
    isValid := fun _ _ => true,
    autoChecked := false }

/-- A permissive per-field validity closure. -/
def fvW : String → Val → Ent → Bool := fun _ _ _ => true

/-- An identity `beforeSave` transform. -/
def bsW : String → Val → Val := fun _ v => v

/-- A schema with no association fields. -/
def assocW : String → Option AssocKind := fun _ => none

/-- A states block with the save track latched. -/
def statesW : ModStates :=
  { fetchInProgress := false, fetchSuccessOnce := false, fetchSuccess := false,
    fetchFailure := false, saveInProgress := false, saveSuccess := true,
    saveFailure := false }

/-- A small entity instance. -/
def eW : Ent :=
  Ent.mk [("name", Val.vPrim "x")] [("name", true), ("mail", false)] statesW

/-- A one-field schema whose primary-key default is the string "gen". -/
def schemaW : List (String × (JVal → JVal)) :=
  [("id", fun _ => JVal.jstr "gen")]

/-- An input item that supplies an empty-string (falsy) primary key. -/
def itemW : List (String × JVal) :=
  [("id", JVal.jstr "")]

/-! ## Witnesses -/

/-- Witness for C1 at a one-item collection: a miss returns `null` and
changes nothing, a hit removes the item and returns the one-element
array. -/
theorem remove_spec_witness :
    ((∀ x ∈ (Collection.mk [{ pk := "a", tag := "x" }] 1).items,
        getCollectionCallback (Ref.str "b") x = false) ∧
      Collection.remove (Collection.mk [{ pk := "a", tag := "x" }] 1)
          (Ref.str "b") =
        (JsVal.null, Collection.mk [{ pk := "a", tag := "x" }] 1)) ∧
    ((∃ x ∈ (Collection.mk [{ pk := "a", tag := "x" }] 1).items,
        getCollectionCallback (Ref.str "a") x = true) ∧
      ∃ x pre post,
        (Collection.mk [{ pk := "a", tag := "x" }] 1).items = pre ++ x :: post ∧
        (∀ y ∈ pre, getCollectionCallback (Ref.str "a") y = false) ∧
        getCollectionCallback (Ref.str "a") x = true ∧
        Collection.remove (Collection.mk [{ pk := "a", tag := "x" }] 1)
            (Ref.str "a") =
          (JsVal.arr [x],
           { items := pre ++ post,
             count := (Collection.mk [{ pk := "a", tag := "x" }] 1).count - 1 }) ∧
        (Collection.remove (Collection.mk [{ pk := "a", tag := "x" }] 1)
            (Ref.str "a")).2.items.length + 1 =
          (Collection.mk [{ pk := "a", tag := "x" }] 1).items.length ∧
        (Collection.remove (Collection.mk [{ pk := "a", tag := "x" }] 1)
            (Ref.str "a")).2.count =
          (Collection.mk [{ pk := "a", tag := "x" }] 1).count - 1) :=
  ⟨⟨by decide, (remove_spec _ _).1 (by decide)⟩,
   ⟨by decide, (remove_spec _ _).2 (by decide)⟩⟩

/-- Witness for C2 at small collections, one conjunct per operation. -/
theorem lengthLeCount_spec_witness :
    (buildCollection [{ pk := "a", tag := "x" }] none).lengthLeCount ∧
    ((([{ pk := "a", tag := "x" }] : List Item).length : Int) ≤ 5 ∧
      (buildCollection [{ pk := "a", tag := "x" }] (some 5)).lengthLeCount) ∧
    ((Collection.mk [{ pk := "a", tag := "x" }] 2).lengthLeCount ∧
      ((Collection.mk [{ pk := "a", tag := "x" }] 2).add
          { pk := "b", tag := "y" }).2.lengthLeCount) ∧
    ((Collection.mk [{ pk := "a", tag := "x" }] 2).lengthLeCount ∧
      ((Collection.mk [{ pk := "a", tag := "x" }] 2).remove
          (Ref.str "a")).2.lengthLeCount) ∧
    ((Collection.mk [{ pk := "a", tag := "x" }] 2).lengthLeCount ∧
      ((Collection.mk [{ pk := "a", tag := "x" }] 2).toggle
          { pk := "a", tag := "x" } none).2.lengthLeCount) ∧
    ((Collection.mk [{ pk := "a", tag := "x" }] 2).lengthLeCount ∧
      (Collection.mk [{ pk := "a", tag := "x" }] 2).clear.lengthLeCount) ∧
    ((Collection.mk [{ pk := "b", tag := "y" }] 4).lengthLeCount ∧
      ((Collection.mk [{ pk := "a", tag := "x" }] 2).mutateData
          (Collection.mk [{ pk := "b", tag := "y" }] 4) false).lengthLeCount) ∧
    (((Collection.mk [{ pk := "a", tag := "x" }] 1).items.length : Int) +
        (Collection.mk [{ pk := "b", tag := "y" }] 5).items.length ≤
        (Collection.mk [{ pk := "b", tag := "y" }] 5).count ∧
      ((Collection.mk [{ pk := "a", tag := "x" }] 1).mutateData
          (Collection.mk [{ pk := "b", tag := "y" }] 5) true).lengthLeCount) :=
  ⟨lengthLeCount_spec.1 _,
   ⟨by decide, lengthLeCount_spec.2.1 _ _ (by decide)⟩,
   ⟨by decide, lengthLeCount_spec.2.2.1 _ _ (by decide)⟩,
   ⟨by decide, lengthLeCount_spec.2.2.2.1 _ _ (by decide)⟩,
   ⟨by decide, lengthLeCount_spec.2.2.2.2.1 _ _ _ (by decide)⟩,
   ⟨by decide, lengthLeCount_spec.2.2.2.2.2.1 _ (by decide)⟩,
   ⟨by decide, lengthLeCount_spec.2.2.2.2.2.2.1 _ _ (by decide)⟩,
   ⟨by decide, lengthLeCount_spec.2.2.2.2.2.2.2 _ _ (by decide)⟩⟩

/-- Witness for C3 at one concrete value per field type. -/
theorem scalar_roundtrip_witness :
    dateRoundTrippable (FVal.fstr "2020-01-02T03:04:05.678Z") ∧
    DATE.beforeSerialize (DATE.beforeBuild
        (FVal.fstr "2020-01-02T03:04:05.678Z")) =
      FVal.fstr "2020-01-02T03:04:05.678Z" ∧
    dateonlyRoundTrippable (FVal.fstr "2020-01-02") ∧
    DATEONLY.beforeSerialize (DATEONLY.beforeBuild (FVal.fstr "2020-01-02")) =
      FVal.fstr "2020-01-02" ∧
    phoneRoundTrippable "+33123" ∧
    PHONE.beforeSerialize (PHONE.beforeBuild "+33123") = "+33123" := by
  have hd : dateRoundTrippable (FVal.fstr "2020-01-02T03:04:05.678Z") :=
    Or.inr ⟨{ year := 2020, month := 1, day := 2, hour := 3, minute := 4,
              second := 5, ms := 678 }, by decide, by decide⟩
  have ho : dateonlyRoundTrippable (FVal.fstr "2020-01-02") :=
    Or.inr ⟨{ year := 2020, month := 1, day := 2, hour := 0, minute := 0,
              second := 0, ms := 0 }, by decide, by decide⟩
  have hp : phoneRoundTrippable "+33123" := by
    unfold phoneRoundTrippable
    refine ⟨?_, ?_⟩ <;> decide
  exact ⟨hd, scalar_roundtrip_spec.1 _ hd, ho, scalar_roundtrip_spec.2.1 _ ho,
    hp, scalar_roundtrip_spec.2.2 _ hp⟩

/-- Witness for C4 at a concrete one-field schema and concrete
arguments. -/
theorem buildValidator_isValid_witness :
    ("f", confW) ∈ [("f", confW)] ∧
    ("f", (confW.autoChecked, validatorIsValid confW)) ∈
      buildValidator [("f", confW)] ∧
    (validatorIsValid confW true true = true ↔
      (((confW.type.isBlank true = true ∧ confW.allowBlank true true = true) ∨
        (confW.type.isBlank true = false ∧ confW.type.isValid true = true)) ∧
       confW.isValid true true = true)) := by
  have hm : ("f", confW) ∈ [("f", confW)] := List.mem_singleton.2 rfl
  exact ⟨hm, (buildValidator_isValid_iff _ _ _ hm).1,
    (buildValidator_isValid_iff _ _ _ hm).2 true true⟩

/-- Witness for C5 at a concrete entity whose validator has two
fields. -/
theorem beforeSaveItem_spec_witness :
    (eW.checked.map Prod.fst).Nodup ∧
    beforeSaveItem fvW bsW eW true =
      (eW.checked.filter
          (fun p => !true || (p.2 && fvW p.1 (eW.getField p.1) eW))).map
        (fun p => (p.1, bsW p.1 (eW.getField p.1))) :=
  ⟨by decide, (beforeSaveItem_spec fvW bsW eW true (by decide)).1⟩

/-- Witness for C6 at a default-key envelope body and a bare number
body. -/
theorem envelope_detection_witness :
    (hasMatchedCollectionPattern defaultEnvelopeCfg
        (SData.obj [("rows", SData.arr []), ("count", SData.num 10)]) = true ∧
      ∃ records cnt,
        (SData.obj [("rows", SData.arr []), ("count", SData.num 10)]).getProp
            defaultEnvelopeCfg.collectionDataKey = some records ∧
        (SData.obj [("rows", SData.arr []), ("count", SData.num 10)]).getProp
            defaultEnvelopeCfg.collectionCountKey = some cnt ∧
        processServerData defaultEnvelopeCfg
            (SData.obj [("rows", SData.arr []), ("count", SData.num 10)]) =
          (some records, some cnt)) ∧
    (hasMatchedCollectionPattern defaultEnvelopeCfg (SData.num 3) = false ∧
      processServerData defaultEnvelopeCfg (SData.num 3) =
        (some (SData.num 3), none)) :=
  ⟨⟨by decide, (envelope_detection_spec _ _).2.1 (by decide)⟩,
   ⟨by decide, (envelope_detection_spec _ _).2.2 (by decide)⟩⟩

/-- Witness for C7 at a collection holding exactly one match. -/
theorem toggle_toggle_witness :
    ((Collection.mk [{ pk := "a", tag := "x" }] 1).items.filter
        (getCollectionCallback (Ref.obj { pk := "a", tag := "x" }))).length ≤ 1 ∧
    ((((Collection.mk [{ pk := "a", tag := "x" }] 1).toggle
          { pk := "a", tag := "x" } none).2).toggle
        { pk := "a", tag := "x" } none).2.existsRef
        (Ref.obj { pk := "a", tag := "x" }) =
      (Collection.mk [{ pk := "a", tag := "x" }] 1).existsRef
        (Ref.obj { pk := "a", tag := "x" }) :=
  ⟨by decide, toggle_toggle_membership _ _ (by decide)⟩

/-- Witness for C8 at an entity without the validated field. -/
theorem validate_missing_witness :
    eW.hasField "ghost" = false ∧
    getValidationErrors assocW fvW eW [Sel.direct "ghost"] =
      (some [("ghost", ErrTree.notFound)], eW) ∧
    (getValidationErrors assocW fvW eW [Sel.direct "ghost"]).2.checked =
      eW.checked :=
  ⟨by decide,
   (validate_missing_direct_field assocW fvW eW "ghost" (by decide)).1,
   (validate_missing_direct_field assocW fvW eW "ghost" (by decide)).2⟩

/-- Witness for C10 at a supplied falsy (empty string) primary key:
the resolved key is the generated default. -/
theorem buildRawItem_witness :
    "id" ∈ schemaW.map Prod.fst ∧
    truthy (getPropJ itemW "primaryKey") = false ∧
    truthy (getPropJ itemW "id") = false ∧
    getPropJ (buildRawItem schemaW "id" itemW) "id" =
      schemaDefault schemaW "id" JVal.undef :=
  ⟨by decide, by decide, by decide,
   (buildRawItem_primaryKey_by_truthiness schemaW "id" itemW
      (by decide)).2.2.2 (by decide) (by decide)⟩

end Restinfront
